import Mathlib

/-!
Verification of the ray-tracing core of the `RayTracing` repository.

The Python sources (`Ray.py`, `MutiAxisParam.py`) are embedded shallowly:
numpy 3-vectors of floats become `Vec3` over `ℝ`, in-place mutation of a
`Ray` becomes explicit state passing (each method returns the updated ray),
and `Ray.interaction`, which both returns an optional intersection point and
mutates the ray, returns an `Option Vec3 × Ray` pair.  Real division follows
the Mathlib convention `x / 0 = 0`; places where the Python code would divide
by a zero norm (producing NaN) are analysed explicitly.
-/

open Real

noncomputable section

/-- A 3-vector of real components, embedding numpy `float64` arrays of length 3. -/
@[ext]
structure Vec3 where
  x : ℝ
  y : ℝ
  z : ℝ

namespace Vec3

instance : Zero Vec3 := ⟨⟨0, 0, 0⟩⟩

instance : Add Vec3 := ⟨fun u v => ⟨u.x + v.x, u.y + v.y, u.z + v.z⟩⟩

instance : Sub Vec3 := ⟨fun u v => ⟨u.x - v.x, u.y - v.y, u.z - v.z⟩⟩

instance : Neg Vec3 := ⟨fun v => ⟨-v.x, -v.y, -v.z⟩⟩

instance : SMul ℝ Vec3 := ⟨fun c v => ⟨c * v.x, c * v.y, c * v.z⟩⟩

@[simp] lemma zero_x : (0 : Vec3).x = 0 := rfl

@[simp] lemma zero_y : (0 : Vec3).y = 0 := rfl

@[simp] lemma zero_z : (0 : Vec3).z = 0 := rfl

@[simp] lemma add_x (u v : Vec3) : (u + v).x = u.x + v.x := rfl

@[simp] lemma add_y (u v : Vec3) : (u + v).y = u.y + v.y := rfl

@[simp] lemma add_z (u v : Vec3) : (u + v).z = u.z + v.z := rfl

@[simp] lemma sub_x (u v : Vec3) : (u - v).x = u.x - v.x := rfl

@[simp] lemma sub_y (u v : Vec3) : (u - v).y = u.y - v.y := rfl

@[simp] lemma sub_z (u v : Vec3) : (u - v).z = u.z - v.z := rfl

@[simp] lemma neg_x (v : Vec3) : (-v).x = -v.x := rfl

@[simp] lemma neg_y (v : Vec3) : (-v).y = -v.y := rfl

@[simp] lemma neg_z (v : Vec3) : (-v).z = -v.z := rfl

@[simp] lemma smul_x (c : ℝ) (v : Vec3) : (c • v).x = c * v.x := rfl

@[simp] lemma smul_y (c : ℝ) (v : Vec3) : (c • v).y = c * v.y := rfl

@[simp] lemma smul_z (c : ℝ) (v : Vec3) : (c • v).z = c * v.z := rfl

/-- Dot product, embedding `np.dot` on length-3 arrays. -/
def dot (u v : Vec3) : ℝ := u.x * v.x + u.y * v.y + u.z * v.z

/-- Cross product, embedding `np.cross` on length-3 arrays. -/
def cross (u v : Vec3) : Vec3 :=
  ⟨u.y * v.z - u.z * v.y, u.z * v.x - u.x * v.z, u.x * v.y - u.y * v.x⟩

/-- Squared Euclidean norm. -/
def normSq (v : Vec3) : ℝ := v.dot v

/-- Euclidean norm, embedding `np.linalg.norm` on length-3 arrays. -/
def norm (v : Vec3) : ℝ := Real.sqrt v.normSq

/-- `vec / np.linalg.norm(vec)`, the normalization idiom used throughout the code. -/
def normalize (v : Vec3) : Vec3 := (1 / v.norm) • v

lemma normSq_eq (v : Vec3) : v.normSq = v.x ^ 2 + v.y ^ 2 + v.z ^ 2 := by
  simp only [normSq, dot]; ring

lemma normSq_nonneg (v : Vec3) : 0 ≤ v.normSq := by
  rw [normSq_eq]; positivity

lemma norm_nonneg (v : Vec3) : 0 ≤ v.norm := Real.sqrt_nonneg _

lemma sq_norm (v : Vec3) : v.norm ^ 2 = v.normSq :=
  Real.sq_sqrt v.normSq_nonneg

lemma normSq_eq_zero_iff (v : Vec3) : v.normSq = 0 ↔ v = 0 := by
  rw [normSq_eq]
  constructor
  · intro h
    have hx : v.x = 0 := by
      have h2 : v.x ^ 2 = 0 :=
        le_antisymm (by nlinarith [sq_nonneg v.y, sq_nonneg v.z]) (sq_nonneg _)
      exact sq_eq_zero_iff.mp h2
    have hy : v.y = 0 := by
      have h2 : v.y ^ 2 = 0 :=
        le_antisymm (by nlinarith [sq_nonneg v.x, sq_nonneg v.z]) (sq_nonneg _)
      exact sq_eq_zero_iff.mp h2
    have hz : v.z = 0 := by
      have h2 : v.z ^ 2 = 0 :=
        le_antisymm (by nlinarith [sq_nonneg v.x, sq_nonneg v.y]) (sq_nonneg _)
      exact sq_eq_zero_iff.mp h2
    ext <;> simp [hx, hy, hz]
  · intro h
    subst h
    norm_num

lemma normSq_pos_of_ne_zero {v : Vec3} (h : v ≠ 0) : 0 < v.normSq :=
  lt_of_le_of_ne v.normSq_nonneg (fun h0 => h ((normSq_eq_zero_iff v).mp h0.symm))

lemma norm_pos_of_ne_zero {v : Vec3} (h : v ≠ 0) : 0 < v.norm :=
  Real.sqrt_pos.mpr (normSq_pos_of_ne_zero h)

lemma smul_dot (c : ℝ) (u v : Vec3) : (c • u).dot v = c * u.dot v := by
  simp only [dot, smul_x, smul_y, smul_z]; ring

lemma add_dot (u v w : Vec3) : (u + v).dot w = u.dot w + v.dot w := by
  simp only [dot, add_x, add_y, add_z]; ring

lemma zero_dot (v : Vec3) : (0 : Vec3).dot v = 0 := by
  simp only [dot, zero_x, zero_y, zero_z]; ring

lemma smul_normSq (c : ℝ) (v : Vec3) : (c • v).normSq = c ^ 2 * v.normSq := by
  simp only [normSq, dot, smul_x, smul_y, smul_z]; ring

lemma normalize_normSq {v : Vec3} (h : v ≠ 0) : v.normalize.normSq = 1 := by
  have hpos := normSq_pos_of_ne_zero h
  rw [normalize, smul_normSq, div_pow, one_pow, sq_norm, one_div, inv_mul_cancel₀ hpos.ne']

lemma normalize_ne_zero {v : Vec3} (h : v ≠ 0) : v.normalize ≠ 0 := by
  intro h0
  have := normalize_normSq h
  rw [h0, normSq_eq] at this
  norm_num at this

lemma normalize_of_normSq_one {v : Vec3} (h : v.normSq = 1) : v.normalize = v := by
  rw [normalize, norm, h, Real.sqrt_one]
  ext <;> simp

@[simp] lemma normalize_zero : (0 : Vec3).normalize = 0 := by
  ext <;> simp [normalize]

end Vec3

/-- Rodrigues rotation of `vec` about `axis` by angle `theta` (radians),
embedding `rotate_vector_around_axis` from `Ray.py`: both the vector and the
axis are normalized before the formula is applied. -/
def rotate_vector_around_axis (vec axis : Vec3) (theta : ℝ) : Vec3 :=
  let v := vec.normalize
  let a := axis.normalize
  (Real.cos theta) • v + (Real.sin theta) • (a.cross v) +
    (a.dot v * (1 - Real.cos theta)) • a

/-- A ray with a position and a direction, embedding the `Ray` class of `Ray.py`.
The Python methods mutate `self`; here each operation returns the updated ray. -/
@[ext]
structure Ray where
  position : Vec3
  direction : Vec3

namespace Ray

/-- `Ray.__init__`: stores the position and the direction divided by its norm. -/
def construct (position direction : Vec3) : Ray :=
  ⟨position, direction.normalize⟩

/-- `Ray.point_at_parameter`: `position + t * direction`. -/
def point_at_parameter (r : Ray) (t : ℝ) : Vec3 :=
  r.position + t • r.direction

/-- `Ray.move`: advances the position by `L` along the direction. -/
def move (r : Ray) (L : ℝ) : Ray :=
  { r with position := r.position + L • r.direction }

/-- `Ray.reflection`: normalizes the mirror normal `n` and applies the
vector-reflection law to the direction. -/
def reflection (r : Ray) (n : Vec3) : Ray :=
  { r with direction :=
      r.direction - (2 * r.direction.dot n.normalize) • n.normalize }

/-- The local `cos_theta = -np.dot(self.direction, n)` of `Ray.refraction`,
with `n` the normalized surface normal. -/
def refractionCos (r : Ray) (n : Vec3) : ℝ :=
  -(r.direction.dot n.normalize)

/-- The local `acos_theta` of `Ray.refraction`: `0` when `abs(cos_theta) >= 1`,
else `arccos(cos_theta)`. -/
def refractionAcos (r : Ray) (n : Vec3) : ℝ :=
  if 1 ≤ |r.refractionCos n| then 0 else Real.arccos (r.refractionCos n)

/-- The vector `parallel_direction_vector = self.direction + cos_theta * n`
computed inside `Ray.refraction` (with `n` the normalized surface normal).
Its normalization in `refraction` is unguarded. -/
def refractionParallelRaw (r : Ray) (n : Vec3) : Vec3 :=
  r.direction + (r.refractionCos n) • n.normalize

/-- `Ray.refraction`: the angle-dependent deflection law of `Ray.py`, with
clamped arccos and the perpendicular/parallel decomposition. Mutates the
direction only. -/
def refraction (r : Ray) (k : ℝ) (n : Vec3) : Ray :=
  let acos_theta := r.refractionAcos n
  let term1 := k * acos_theta / Real.sqrt (1 + k ^ 2 * acos_theta ^ 2)
  let vertical_direction :=
    (-1 * (1 / Real.sqrt (1 + k ^ 2 * acos_theta ^ 2))) • n.normalize
  let parallel_direction := term1 • (r.refractionParallelRaw n).normalize
  { r with direction := (vertical_direction + parallel_direction).normalize }

/-- `Ray.interaction`: ray/plane intersection. Returns `none` when the ray is
parallel to the plane (`|denominator| < 1e-10`) or the parameter `t` is
negative; otherwise commits the intersection point to the position and
returns it. The pair carries the Python return value and the updated ray. -/
def interaction (r : Ray) (n P : Vec3) : Option Vec3 × Ray :=
  if |r.direction.dot n.normalize| < 1e-10 then (none, r)
  else if ((P - r.position).dot n.normalize) / (r.direction.dot n.normalize) < 0 then
    (none, r)
  else
    (some (r.point_at_parameter
        (((P - r.position).dot n.normalize) / (r.direction.dot n.normalize))),
     ⟨r.point_at_parameter
        (((P - r.position).dot n.normalize) / (r.direction.dot n.normalize)),
      r.direction⟩)

/-- `Ray.scan`: rotates the two mirror normals by the commanded angles
(degrees), then performs interaction + reflection at each mirror in turn. -/
def scan (r : Ray) (Px1 Px2 nx ny nx_rotation ny_rotation : Vec3)
    (x_angle y_angle : ℝ) : Ray :=
  let nx' := nx.normalize
  let ny' := ny.normalize
  let nxr := nx_rotation.normalize
  let nyr := ny_rotation.normalize
  let nx_after := rotate_vector_around_axis nx' nxr (x_angle * Real.pi / 180)
  let ny_after := rotate_vector_around_axis ny' nyr (y_angle * Real.pi / 180)
  let r1 := (r.interaction nx_after Px1).2
  let r2 := r1.reflection nx_after
  let r3 := (r2.interaction ny_after Px2).2
  r3.reflection ny_after

end Ray

/-- The multi-axis galvanometer system of `MutiAxisParam.py`: a focus distance
and a mirror gap. The bound ray (`self.ray`) is passed explicitly to each
operation. -/
structure MultiAxisGalvanometer where
  focus_distance : ℝ
  galvo_gap : ℝ

namespace MultiAxisGalvanometer

/-- `MultiAxisGalvanometer.reflect`: interaction with the mirror plane, then
reflection off it. The `None` possibly returned by the interaction is
discarded, exactly as in the Python code. -/
def reflect (_g : MultiAxisGalvanometer) (r : Ray) (normal point : Vec3) : Ray :=
  ((r.interaction normal point).2).reflection normal

/-- `MultiAxisGalvanometer.scan`: delegates to `Ray.scan`. -/
def scan (_g : MultiAxisGalvanometer) (r : Ray)
    (Px1 Px2 nx ny nx_rotation ny_rotation : Vec3) (x_angle y_angle : ℝ) : Ray :=
  r.scan Px1 Px2 nx ny nx_rotation ny_rotation x_angle y_angle

/-- `MultiAxisGalvanometer.refract`: interaction with the field-lens plane,
then refraction with parameter `k`. The interaction's return value is
discarded, exactly as in the Python code. -/
def refract (_g : MultiAxisGalvanometer) (r : Ray) (normal point : Vec3)
    (k : ℝ) : Ray :=
  ((r.interaction normal point).2).refraction k normal

/-- `MultiAxisGalvanometer.trace`: drives the bound ray through the six-stage
optical prescription and returns the focal-plane interaction's result (the
Python return value) together with the final ray state. -/
def trace (g : MultiAxisGalvanometer) (r : Ray) (X_angle Y_angle : ℝ) :
    Option Vec3 × Ray :=
  let r1 := g.reflect r ⟨0, 1, -1⟩ ⟨0, 20, 0⟩
  let r2 := g.reflect r1 ⟨0, 1, -1⟩ ⟨0, 20, 200⟩
  let r3 := g.scan r2 ⟨0, 180, 200⟩ ⟨g.galvo_gap, 180, 200⟩ ⟨-1, 1, 0⟩ ⟨1, 0, 1⟩
      ⟨0, 0, 1⟩ ⟨0, 1, 0⟩ X_angle Y_angle
  let r4 := g.refract r3 ⟨0, 0, 1⟩ ⟨g.galvo_gap, 180, 170⟩ (-1)
  r4.interaction ⟨0, 0, 1⟩ ⟨g.galvo_gap, 180, 170 - g.focus_distance⟩

end MultiAxisGalvanometer

namespace Ray

/-- The direction a ray holds after `reflection`, written out. -/
lemma reflection_direction (r : Ray) (n : Vec3) :
    (r.reflection n).direction =
      r.direction - (2 * r.direction.dot n.normalize) • n.normalize := rfl

/-- `reflection` leaves the position untouched. -/
lemma reflection_position (r : Ray) (n : Vec3) :
    (r.reflection n).position = r.position := rfl

/-- The direction a ray holds after `refraction`, written out. -/
lemma refraction_direction (r : Ray) (k : ℝ) (n : Vec3) :
    (r.refraction k n).direction =
      (((-1 * (1 / Real.sqrt (1 + k ^ 2 * (r.refractionAcos n) ^ 2))) • n.normalize
        + (k * (r.refractionAcos n)
            / Real.sqrt (1 + k ^ 2 * (r.refractionAcos n) ^ 2))
              • (r.refractionParallelRaw n).normalize)).normalize := rfl

/-- `refraction` leaves the position untouched. -/
lemma refraction_position (r : Ray) (k : ℝ) (n : Vec3) :
    (r.refraction k n).position = r.position := rfl

/-- `interaction` never changes the direction. -/
lemma interaction_direction (r : Ray) (n P : Vec3) :
    ((r.interaction n P).2).direction = r.direction := by
  unfold interaction
  split_ifs <;> rfl

/-- `interaction` when the ray is parallel to the plane. -/
lemma interaction_parallel {r : Ray} {n : Vec3} (P : Vec3)
    (h : |r.direction.dot n.normalize| < 1e-10) :
    r.interaction n P = (none, r) := by
  unfold interaction
  rw [if_pos h]

/-- `interaction` when the intersection parameter is negative. -/
lemma interaction_behind {r : Ray} {n : Vec3} (P : Vec3)
    (h1 : ¬ |r.direction.dot n.normalize| < 1e-10)
    (h2 : ((P - r.position).dot n.normalize) / (r.direction.dot n.normalize) < 0) :
    r.interaction n P = (none, r) := by
  unfold interaction
  rw [if_neg h1, if_pos h2]

/-- `interaction` when a forward intersection exists. -/
lemma interaction_hit {r : Ray} {n : Vec3} (P : Vec3)
    (h1 : ¬ |r.direction.dot n.normalize| < 1e-10)
    (h2 : ¬ ((P - r.position).dot n.normalize) / (r.direction.dot n.normalize) < 0) :
    r.interaction n P =
      (some (r.point_at_parameter
          (((P - r.position).dot n.normalize) / (r.direction.dot n.normalize))),
       ⟨r.point_at_parameter
          (((P - r.position).dot n.normalize) / (r.direction.dot n.normalize)),
        r.direction⟩) := by
  unfold interaction
  rw [if_neg h1, if_neg h2]

end Ray

/-- Reflecting a vector across a unit normal preserves its squared norm. -/
lemma reflectDir_normSq (d m : Vec3) (hm : m.normSq = 1) :
    (d - (2 * d.dot m) • m).normSq = d.normSq := by
  rw [Vec3.normSq_eq] at hm ⊢
  rw [Vec3.normSq_eq]
  simp only [Vec3.dot, Vec3.sub_x, Vec3.sub_y, Vec3.sub_z, Vec3.smul_x, Vec3.smul_y,
    Vec3.smul_z]
  linear_combination (4 * (d.x * m.x + d.y * m.y + d.z * m.z) ^ 2) * hm

/-- Reflecting a vector twice across the same unit normal restores it. -/
lemma reflectDir_involution (d m : Vec3) (hm : m.normSq = 1) :
    (d - (2 * d.dot m) • m) - (2 * ((d - (2 * d.dot m) • m).dot m)) • m = d := by
  rw [Vec3.normSq_eq] at hm
  ext
  · simp only [Vec3.dot, Vec3.sub_x, Vec3.smul_x, Vec3.sub_y, Vec3.smul_y, Vec3.sub_z,
      Vec3.smul_z]
    linear_combination (4 * (d.x * m.x + d.y * m.y + d.z * m.z) * m.x) * hm
  · simp only [Vec3.dot, Vec3.sub_x, Vec3.smul_x, Vec3.sub_y, Vec3.smul_y, Vec3.sub_z,
      Vec3.smul_z]
    linear_combination (4 * (d.x * m.x + d.y * m.y + d.z * m.z) * m.y) * hm
  · simp only [Vec3.dot, Vec3.sub_x, Vec3.smul_x, Vec3.sub_y, Vec3.smul_y, Vec3.sub_z,
      Vec3.smul_z]
    linear_combination (4 * (d.x * m.x + d.y * m.y + d.z * m.z) * m.z) * hm

/-- Abstract algebraic core of norm preservation by Rodrigues' formula. -/
lemma rodrigues_aux (U A D c s : ℝ) (hU : U = 1) (hA : A = 1)
    (hsc : s ^ 2 + c ^ 2 = 1) :
    c ^ 2 * U + s ^ 2 * (A * U - D ^ 2) + A * D ^ 2 * (1 - c) ^ 2
      + 2 * c * (1 - c) * D ^ 2 = 1 := by
  subst hU
  subst hA
  linear_combination (1 - D ^ 2) * hsc

/-- Coordinate expansion of the squared norm of a Rodrigues-rotated vector. -/
lemma rodrigues_normSq_expand (u a : Vec3) (c s : ℝ) :
    (c • u + s • (a.cross u) + (a.dot u * (1 - c)) • a).normSq
      = c ^ 2 * u.normSq + s ^ 2 * (a.normSq * u.normSq - (a.dot u) ^ 2)
        + a.normSq * (a.dot u) ^ 2 * (1 - c) ^ 2
        + 2 * c * (1 - c) * (a.dot u) ^ 2 := by
  simp only [Vec3.normSq, Vec3.dot, Vec3.cross, Vec3.add_x, Vec3.add_y, Vec3.add_z,
    Vec3.smul_x, Vec3.smul_y, Vec3.smul_z]
  ring

/-- Rodrigues' formula applied to unit vectors yields a unit vector. -/
lemma rodrigues_unit_normSq {u a : Vec3} (hu : u.normSq = 1) (ha : a.normSq = 1)
    (theta : ℝ) :
    (Real.cos theta • u + Real.sin theta • (a.cross u)
      + (a.dot u * (1 - Real.cos theta)) • a).normSq = 1 := by
  rw [rodrigues_normSq_expand]
  exact rodrigues_aux _ _ _ _ _ hu ha (Real.sin_sq_add_cos_sq theta)

/-- The rotation helper always returns a vector of squared norm `1` on
nonzero inputs, because it normalizes both arguments first. -/
lemma rotate_vector_around_axis_normSq {vec axis : Vec3} (theta : ℝ)
    (hv : vec ≠ 0) (ha : axis ≠ 0) :
    (rotate_vector_around_axis vec axis theta).normSq = 1 := by
  simp only [rotate_vector_around_axis]
  exact rodrigues_unit_normSq (Vec3.normalize_normSq hv) (Vec3.normalize_normSq ha) theta

/-- The rotation helper never returns the zero vector on nonzero inputs. -/
lemma rotate_vector_around_axis_ne_zero {vec axis : Vec3} (theta : ℝ)
    (hv : vec ≠ 0) (ha : axis ≠ 0) :
    rotate_vector_around_axis vec axis theta ≠ 0 := by
  intro h0
  have h1 := rotate_vector_around_axis_normSq theta hv ha
  rw [h0] at h1
  rw [Vec3.normSq_eq] at h1
  norm_num at h1

/-- The combined refracted direction is a unit vector whenever the surface
normal is nonzero: the perpendicular component keeps a nonzero share along the
normal, so the final normalization acts on a nonzero vector. -/
lemma refraction_direction_normSq (r : Ray) (k : ℝ) {n : Vec3} (hn : n ≠ 0) :
    ((r.refraction k n).direction).normSq = 1 := by
  have hnn : n.normalize.dot n.normalize = 1 := Vec3.normalize_normSq hn
  have hQ : (0:ℝ) < 1 + k ^ 2 * (r.refractionAcos n) ^ 2 := by positivity
  have hp0 : (r.refractionParallelRaw n).dot n.normalize = 0 := by
    unfold Ray.refractionParallelRaw Ray.refractionCos
    rw [Vec3.add_dot, Vec3.smul_dot, hnn]
    ring
  have hpn : (r.refractionParallelRaw n).normalize.dot n.normalize = 0 := by
    rcases eq_or_ne (r.refractionParallelRaw n) 0 with h | h
    · rw [h, Vec3.normalize_zero, Vec3.zero_dot]
    · rw [Vec3.normalize, Vec3.smul_dot, hp0, mul_zero]
  rw [Ray.refraction_direction]
  apply Vec3.normalize_normSq
  intro h0
  have hdot := congrArg (fun v => Vec3.dot v n.normalize) h0
  simp only [Vec3.add_dot, Vec3.smul_dot, Vec3.zero_dot, hpn, hnn, mul_zero, mul_one,
    add_zero] at hdot
  have hs : (0:ℝ) < 1 / Real.sqrt (1 + k ^ 2 * (r.refractionAcos n) ^ 2) := by
    have := Real.sqrt_pos.mpr hQ
    positivity
  linarith [hdot, hs]

/-- The six-step refraction procedure exactly as the specification words it,
for comparison with the source's `Ray.refraction`. -/
def refractSpec (d : Vec3) (k : ℝ) (n : Vec3) : Vec3 :=
  let nn := n.normalize
  let cosTheta := -(d.dot nn)
  let acosTheta := if 1 ≤ |cosTheta| then 0 else Real.arccos cosTheta
  let term1 := k * acosTheta / Real.sqrt (1 + k ^ 2 * acosTheta ^ 2)
  let perpendicular := (-(1 / Real.sqrt (1 + k ^ 2 * acosTheta ^ 2))) • nn
  let parallel := term1 • (d + cosTheta • nn).normalize
  (perpendicular + parallel).normalize

/-- C5: `Ray.refraction` computes its new direction by exactly the
specification's six-step procedure (clamped arccos, `term1`, perpendicular and
parallel components, final normalization) and leaves the position unchanged. -/
theorem C5_refraction_follows_spec (r : Ray) (k : ℝ) (n : Vec3) :
    (r.refraction k n).direction = refractSpec r.direction k n
    ∧ (r.refraction k n).position = r.position := by
  refine ⟨?_, rfl⟩
  rw [Ray.refraction_direction]
  simp only [refractSpec, Ray.refractionAcos, Ray.refractionCos, Ray.refractionParallelRaw]
  rw [neg_one_mul]

/-- C4: `Ray.interaction` returns `none` exactly when the ray is parallel to
the plane (`|direction . n| < 1e-10` after normalizing `n`) or the parameter
`t` is negative; in that case the ray is unchanged, and otherwise the position
is updated to `position + t * direction` and returned. -/
theorem C4_interaction_contract (r : Ray) (n P : Vec3) :
    ((r.interaction n P).1 = none ↔
      (|r.direction.dot n.normalize| < 1e-10 ∨
        ((P - r.position).dot n.normalize) / (r.direction.dot n.normalize) < 0))
    ∧ ((r.interaction n P).1 = none → (r.interaction n P).2 = r)
    ∧ ((r.interaction n P).1 ≠ none →
        (r.interaction n P).2.position
            = r.position + (((P - r.position).dot n.normalize)
                / (r.direction.dot n.normalize)) • r.direction
          ∧ (r.interaction n P).2.direction = r.direction
          ∧ (r.interaction n P).1 = some ((r.interaction n P).2.position)) := by
  by_cases h1 : |r.direction.dot n.normalize| < 1e-10
  · rw [Ray.interaction_parallel P h1]
    simp [h1]
  · by_cases h2 : ((P - r.position).dot n.normalize) / (r.direction.dot n.normalize) < 0
    · rw [Ray.interaction_behind P h1 h2]
      simp [h1, h2]
    · rw [Ray.interaction_hit P h1 h2]
      simp [h1, h2, Ray.point_at_parameter]

/-- Witness for C4 at a concrete hit: ray at the origin pointing up the `z`
axis against the plane `z = 5`. -/
theorem C4_interaction_contract_witness :
    ((⟨⟨0, 0, 0⟩, ⟨0, 0, 1⟩⟩ : Ray).interaction ⟨0, 0, 1⟩ ⟨0, 0, 5⟩).2.position
        = (⟨⟨0, 0, 0⟩, ⟨0, 0, 1⟩⟩ : Ray).position
            + (Vec3.dot ((⟨0, 0, 5⟩ : Vec3) - (⟨⟨0, 0, 0⟩, ⟨0, 0, 1⟩⟩ : Ray).position)
                    (Vec3.normalize ⟨0, 0, 1⟩)
                  / Vec3.dot (⟨⟨0, 0, 0⟩, ⟨0, 0, 1⟩⟩ : Ray).direction
                    (Vec3.normalize ⟨0, 0, 1⟩))
              • (⟨⟨0, 0, 0⟩, ⟨0, 0, 1⟩⟩ : Ray).direction
      ∧ ((⟨⟨0, 0, 0⟩, ⟨0, 0, 1⟩⟩ : Ray).interaction ⟨0, 0, 1⟩ ⟨0, 0, 5⟩).2.direction
          = (⟨⟨0, 0, 0⟩, ⟨0, 0, 1⟩⟩ : Ray).direction
      ∧ ((⟨⟨0, 0, 0⟩, ⟨0, 0, 1⟩⟩ : Ray).interaction ⟨0, 0, 1⟩ ⟨0, 0, 5⟩).1
          = some (((⟨⟨0, 0, 0⟩, ⟨0, 0, 1⟩⟩ : Ray).interaction ⟨0, 0, 1⟩ ⟨0, 0, 5⟩).2.position) := by
  have hn1 : Vec3.normalize ⟨0, 0, 1⟩ = ⟨0, 0, 1⟩ :=
    Vec3.normalize_of_normSq_one (by norm_num [Vec3.normSq_eq])
  have hd : (⟨⟨0, 0, 0⟩, ⟨0, 0, 1⟩⟩ : Ray).direction.dot (Vec3.normalize ⟨0, 0, 1⟩) = 1 := by
    rw [hn1]
    norm_num [Vec3.dot]
  have h1 : ¬ |(⟨⟨0, 0, 0⟩, ⟨0, 0, 1⟩⟩ : Ray).direction.dot (Vec3.normalize ⟨0, 0, 1⟩)| < 1e-10 := by
    rw [hd]
    norm_num
  have h2 : ¬ (((⟨0, 0, 5⟩ - (⟨⟨0, 0, 0⟩, ⟨0, 0, 1⟩⟩ : Ray).position).dot
        (Vec3.normalize ⟨0, 0, 1⟩))
      / ((⟨⟨0, 0, 0⟩, ⟨0, 0, 1⟩⟩ : Ray).direction.dot (Vec3.normalize ⟨0, 0, 1⟩))) < 0 := by
    rw [hn1]
    norm_num [Vec3.dot]
  have hne : ((⟨⟨0, 0, 0⟩, ⟨0, 0, 1⟩⟩ : Ray).interaction ⟨0, 0, 1⟩ ⟨0, 0, 5⟩).1 ≠ none := by
    rw [Ray.interaction_hit ⟨0, 0, 5⟩ h1 h2]
    simp
  exact (C4_interaction_contract ⟨⟨0, 0, 0⟩, ⟨0, 0, 1⟩⟩ ⟨0, 0, 1⟩ ⟨0, 0, 5⟩).2.2 hne

/-- C6 (code bug): constructing a `Ray` with the zero direction raises no
error at all. In the embedding (`x / 0 = 0`) the stored direction is the zero
vector, violating the unit-direction guarantee of the constructor's own
documentation; in numpy the same division produces NaN components with only a
runtime warning. -/
theorem C6_zero_direction_no_failure :
    Ray.construct ⟨1, 2, 3⟩ ⟨0, 0, 0⟩ = ⟨⟨1, 2, 3⟩, ⟨0, 0, 0⟩⟩
    ∧ (Ray.construct ⟨1, 2, 3⟩ ⟨0, 0, 0⟩).direction.normSq ≠ 1 := by
  have h0 : (⟨0, 0, 0⟩ : Vec3) = 0 := rfl
  have h : Ray.construct ⟨1, 2, 3⟩ ⟨0, 0, 0⟩ = ⟨⟨1, 2, 3⟩, ⟨0, 0, 0⟩⟩ := by
    unfold Ray.construct
    rw [h0, Vec3.normalize_zero]
  refine ⟨h, ?_⟩
  rw [h]
  norm_num [Vec3.normSq_eq]

/-- C7 (code bug): when the incoming direction is exactly antiparallel to the
deflection `cos_theta * n`, the `parallel_direction_vector` of
`Ray.refraction` is the zero vector and its norm — the divisor of the
unguarded normalization `parallel_direction_vector / np.linalg.norm(...)` —
is `0`.  The code has no branch for this case (in numpy the division yields
NaN), contrary to the required explicit guard. -/
theorem C7_degenerate_parallel_unguarded :
    Ray.refractionParallelRaw ⟨⟨0, 0, 0⟩, ⟨0, 0, 1⟩⟩ ⟨0, 0, 1⟩ = 0
    ∧ Vec3.norm (Ray.refractionParallelRaw ⟨⟨0, 0, 0⟩, ⟨0, 0, 1⟩⟩ ⟨0, 0, 1⟩) = 0 := by
  have hn1 : Vec3.normalize ⟨0, 0, 1⟩ = ⟨0, 0, 1⟩ :=
    Vec3.normalize_of_normSq_one (by norm_num [Vec3.normSq_eq])
  have h : Ray.refractionParallelRaw ⟨⟨0, 0, 0⟩, ⟨0, 0, 1⟩⟩ ⟨0, 0, 1⟩ = 0 := by
    unfold Ray.refractionParallelRaw Ray.refractionCos
    rw [hn1]
    ext <;> norm_num [Vec3.dot]
  refine ⟨h, ?_⟩
  rw [h]
  unfold Vec3.norm
  rw [show (0 : Vec3).normSq = 0 by norm_num [Vec3.normSq_eq]]
  exact Real.sqrt_zero

/-- C9: reflecting twice off the same (nonzero) normal restores the original
direction, and neither reflection moves the position. -/
theorem C9_reflection_involution (r : Ray) (n : Vec3) (hn : n ≠ 0) :
    ((r.reflection n).reflection n).direction = r.direction
    ∧ ((r.reflection n).reflection n).position = r.position
    ∧ (r.reflection n).position = r.position := by
  refine ⟨?_, rfl, rfl⟩
  rw [Ray.reflection_direction, Ray.reflection_direction]
  exact reflectDir_involution r.direction n.normalize (Vec3.normalize_normSq hn)

/-- Witness for C9 at a concrete ray and mirror normal. -/
theorem C9_reflection_involution_witness :
    (((⟨⟨0, 0, 0⟩, ⟨1, 0, 0⟩⟩ : Ray).reflection ⟨0, 1, 0⟩).reflection ⟨0, 1, 0⟩).direction
        = (⟨⟨0, 0, 0⟩, ⟨1, 0, 0⟩⟩ : Ray).direction
    ∧ (((⟨⟨0, 0, 0⟩, ⟨1, 0, 0⟩⟩ : Ray).reflection ⟨0, 1, 0⟩).reflection ⟨0, 1, 0⟩).position
        = (⟨⟨0, 0, 0⟩, ⟨1, 0, 0⟩⟩ : Ray).position
    ∧ ((⟨⟨0, 0, 0⟩, ⟨1, 0, 0⟩⟩ : Ray).reflection ⟨0, 1, 0⟩).position
        = (⟨⟨0, 0, 0⟩, ⟨1, 0, 0⟩⟩ : Ray).position :=
  C9_reflection_involution ⟨⟨0, 0, 0⟩, ⟨1, 0, 0⟩⟩ ⟨0, 1, 0⟩
    (fun h => one_ne_zero (congrArg Vec3.y h))

/-- A vector with a nonzero `x` component is nonzero. -/
lemma vec_ne_zero_of_x {v : Vec3} (h : v.x ≠ 0) : v ≠ 0 :=
  fun h0 => h (by rw [h0]; rfl)

/-- A vector with a nonzero `y` component is nonzero. -/
lemma vec_ne_zero_of_y {v : Vec3} (h : v.y ≠ 0) : v ≠ 0 :=
  fun h0 => h (by rw [h0]; rfl)

/-- A vector with a nonzero `z` component is nonzero. -/
lemma vec_ne_zero_of_z {v : Vec3} (h : v.z ≠ 0) : v ≠ 0 :=
  fun h0 => h (by rw [h0]; rfl)

/-- `reflection` preserves a unit direction for any nonzero mirror normal. -/
lemma reflection_direction_normSq {r : Ray} {n : Vec3} (hn : n ≠ 0)
    (hd : r.direction.normSq = 1) : ((r.reflection n).direction).normSq = 1 := by
  rw [Ray.reflection_direction, reflectDir_normSq _ _ (Vec3.normalize_normSq hn), hd]

/-- `scan` preserves a unit direction when the mirror normals and rotation
axes are nonzero. -/
lemma scan_direction_normSq {r : Ray} (Px1 Px2 : Vec3) {nx ny nxr nyr : Vec3}
    (x_angle y_angle : ℝ) (hd : r.direction.normSq = 1) (hnx : nx ≠ 0)
    (hny : ny ≠ 0) (hnxr : nxr ≠ 0) (hnyr : nyr ≠ 0) :
    ((r.scan Px1 Px2 nx ny nxr nyr x_angle y_angle).direction).normSq = 1 := by
  have hxa : rotate_vector_around_axis nx.normalize nxr.normalize
      (x_angle * Real.pi / 180) ≠ 0 :=
    rotate_vector_around_axis_ne_zero _ (Vec3.normalize_ne_zero hnx)
      (Vec3.normalize_ne_zero hnxr)
  have hya : rotate_vector_around_axis ny.normalize nyr.normalize
      (y_angle * Real.pi / 180) ≠ 0 :=
    rotate_vector_around_axis_ne_zero _ (Vec3.normalize_ne_zero hny)
      (Vec3.normalize_ne_zero hnyr)
  simp only [Ray.scan]
  apply reflection_direction_normSq hya
  rw [Ray.interaction_direction]
  apply reflection_direction_normSq hxa
  rw [Ray.interaction_direction]
  exact hd

/-- C3: the direction is unit after construction from a nonzero vector and
after every mutating operation: `move`, `reflection` (nonzero normal),
`refraction` (nonzero normal, non-degenerate parallel component),
`interaction`, and `scan` (nonzero normals and axes). -/
theorem C3_unit_direction_invariant :
    (∀ p d : Vec3, d ≠ 0 → ((Ray.construct p d).direction).normSq = 1)
    ∧ (∀ (r : Ray) (L : ℝ), r.direction.normSq = 1 →
        ((r.move L).direction).normSq = 1)
    ∧ (∀ (r : Ray) (n : Vec3), r.direction.normSq = 1 → n ≠ 0 →
        ((r.reflection n).direction).normSq = 1)
    ∧ (∀ (r : Ray) (k : ℝ) (n : Vec3), r.direction.normSq = 1 → n ≠ 0 →
        r.refractionParallelRaw n ≠ 0 → ((r.refraction k n).direction).normSq = 1)
    ∧ (∀ (r : Ray) (n P : Vec3), r.direction.normSq = 1 →
        (((r.interaction n P).2).direction).normSq = 1)
    ∧ (∀ (r : Ray) (Px1 Px2 nx ny nxr nyr : Vec3) (xa ya : ℝ),
        r.direction.normSq = 1 → nx ≠ 0 → ny ≠ 0 → nxr ≠ 0 → nyr ≠ 0 →
        ((r.scan Px1 Px2 nx ny nxr nyr xa ya).direction).normSq = 1) := by
  refine ⟨?_, ?_, ?_, ?_, ?_, ?_⟩
  · intro p d hd
    exact Vec3.normalize_normSq hd
  · intro r L h
    exact h
  · intro r n h hn
    exact reflection_direction_normSq hn h
  · intro r k n _hd hn _hp
    exact refraction_direction_normSq r k hn
  · intro r n P h
    rw [Ray.interaction_direction]
    exact h
  · intro r Px1 Px2 nx ny nxr nyr xa ya h h1 h2 h3 h4
    exact scan_direction_normSq Px1 Px2 xa ya h h1 h2 h3 h4

/-- Witness for C3: each mutating operation evaluated at a concrete ray. -/
theorem C3_unit_direction_invariant_witness :
    ((Ray.construct ⟨0, 0, 0⟩ ⟨0, 0, 2⟩).direction).normSq = 1
    ∧ (((⟨⟨0, 0, 0⟩, ⟨0, 0, 1⟩⟩ : Ray).move 5).direction).normSq = 1
    ∧ (((⟨⟨0, 0, 0⟩, ⟨0, 0, 1⟩⟩ : Ray).reflection ⟨0, 1, 0⟩).direction).normSq = 1
    ∧ (((⟨⟨0, 0, 0⟩, ⟨0, 1, 0⟩⟩ : Ray).refraction (-1) ⟨0, 0, 1⟩).direction).normSq = 1
    ∧ ((((⟨⟨0, 0, 0⟩, ⟨0, 0, 1⟩⟩ : Ray).interaction ⟨0, 0, 1⟩ ⟨0, 0, 5⟩).2.direction).normSq = 1)
    ∧ (((⟨⟨0, 0, 0⟩, ⟨0, 1, 0⟩⟩ : Ray).scan ⟨0, 180, 200⟩ ⟨13, 180, 200⟩ ⟨-1, 1, 0⟩
          ⟨1, 0, 1⟩ ⟨0, 0, 1⟩ ⟨0, 1, 0⟩ 0 0).direction).normSq = 1 := by
  have hz : ((⟨⟨0, 0, 0⟩, ⟨0, 0, 1⟩⟩ : Ray)).direction.normSq = 1 := by
    norm_num [Vec3.normSq_eq]
  have hy : ((⟨⟨0, 0, 0⟩, ⟨0, 1, 0⟩⟩ : Ray)).direction.normSq = 1 := by
    norm_num [Vec3.normSq_eq]
  have hpv : Ray.refractionParallelRaw ⟨⟨0, 0, 0⟩, ⟨0, 1, 0⟩⟩ ⟨0, 0, 1⟩ ≠ 0 := by
    apply vec_ne_zero_of_y
    simp [Ray.refractionParallelRaw, Ray.refractionCos, Vec3.normalize, Vec3.dot]
  refine ⟨C3_unit_direction_invariant.1 ⟨0, 0, 0⟩ ⟨0, 0, 2⟩
      (vec_ne_zero_of_z (by norm_num)),
    C3_unit_direction_invariant.2.1 ⟨⟨0, 0, 0⟩, ⟨0, 0, 1⟩⟩ 5 hz,
    C3_unit_direction_invariant.2.2.1 ⟨⟨0, 0, 0⟩, ⟨0, 0, 1⟩⟩ ⟨0, 1, 0⟩ hz
      (vec_ne_zero_of_y (by norm_num)),
    C3_unit_direction_invariant.2.2.2.1 ⟨⟨0, 0, 0⟩, ⟨0, 1, 0⟩⟩ (-1) ⟨0, 0, 1⟩ hy
      (vec_ne_zero_of_z (by norm_num)) hpv,
    C3_unit_direction_invariant.2.2.2.2.1 ⟨⟨0, 0, 0⟩, ⟨0, 0, 1⟩⟩ ⟨0, 0, 1⟩ ⟨0, 0, 5⟩ hz,
    C3_unit_direction_invariant.2.2.2.2.2 ⟨⟨0, 0, 0⟩, ⟨0, 1, 0⟩⟩ ⟨0, 180, 200⟩
      ⟨13, 180, 200⟩ ⟨-1, 1, 0⟩ ⟨1, 0, 1⟩ ⟨0, 0, 1⟩ ⟨0, 1, 0⟩ 0 0 hy
      (vec_ne_zero_of_x (by norm_num)) (vec_ne_zero_of_x (by norm_num))
      (vec_ne_zero_of_z (by norm_num)) (vec_ne_zero_of_y (by norm_num))⟩

/-- Counterexample for C8: the helper normalizes its input, so rotating the
non-unit vector `(2,0,0)` by angle `0` returns `(1,0,0)`, not the input. -/
theorem C8_rotation_zero_angle_counterexample :
    rotate_vector_around_axis ⟨2, 0, 0⟩ ⟨0, 0, 1⟩ 0 ≠ ⟨2, 0, 0⟩ := by
  have hnorm : Vec3.norm ⟨2, 0, 0⟩ = 2 := by
    unfold Vec3.norm
    rw [show Vec3.normSq ⟨2, 0, 0⟩ = 4 by norm_num [Vec3.normSq_eq]]
    rw [show (4 : ℝ) = 2 ^ 2 by norm_num]
    exact Real.sqrt_sq (by norm_num)
  have hnv : Vec3.normalize ⟨2, 0, 0⟩ = ⟨1, 0, 0⟩ := by
    unfold Vec3.normalize
    rw [hnorm]
    ext <;> norm_num
  have hna : Vec3.normalize ⟨0, 0, 1⟩ = ⟨0, 0, 1⟩ :=
    Vec3.normalize_of_normSq_one (by norm_num [Vec3.normSq_eq])
  have hv : rotate_vector_around_axis ⟨2, 0, 0⟩ ⟨0, 0, 1⟩ 0 = ⟨1, 0, 0⟩ := by
    simp only [rotate_vector_around_axis, hnv, hna, Real.cos_zero, Real.sin_zero]
    ext <;> simp [Vec3.cross, Vec3.dot]
  intro h
  rw [hv] at h
  have := congrArg Vec3.x h
  norm_num at this

/-- C8 as amended: for a vector that is already unit, rotation by angle `0`
or by `2π` about any nonzero axis returns it, and rotating it about itself
returns it for every angle. -/
theorem C8_rotation_identities_unit (v a : Vec3) (theta : ℝ)
    (hv : v.normSq = 1) (_ha : a ≠ 0) :
    rotate_vector_around_axis v a 0 = v
    ∧ rotate_vector_around_axis v a (2 * Real.pi) = v
    ∧ rotate_vector_around_axis v v theta = v := by
  have hvn : v.normalize = v := Vec3.normalize_of_normSq_one hv
  have hd : v.x ^ 2 + v.y ^ 2 + v.z ^ 2 = 1 := by
    rw [← Vec3.normSq_eq]
    exact hv
  refine ⟨?_, ?_, ?_⟩
  · simp only [rotate_vector_around_axis, hvn, Real.cos_zero, Real.sin_zero]
    ext <;> simp
  · simp only [rotate_vector_around_axis, hvn, Real.cos_two_pi, Real.sin_two_pi]
    ext <;> simp
  · simp only [rotate_vector_around_axis, hvn]
    ext
    · simp only [Vec3.add_x, Vec3.smul_x, Vec3.cross, Vec3.dot]
      linear_combination ((1 - Real.cos theta) * v.x) * hd
    · simp only [Vec3.add_y, Vec3.smul_y, Vec3.cross, Vec3.dot]
      linear_combination ((1 - Real.cos theta) * v.y) * hd
    · simp only [Vec3.add_z, Vec3.smul_z, Vec3.cross, Vec3.dot]
      linear_combination ((1 - Real.cos theta) * v.z) * hd

/-- Witness for the amended C8 at a concrete unit vector and axis. -/
theorem C8_rotation_identities_unit_witness :
    rotate_vector_around_axis ⟨1, 0, 0⟩ ⟨0, 0, 1⟩ 0 = ⟨1, 0, 0⟩
    ∧ rotate_vector_around_axis ⟨1, 0, 0⟩ ⟨0, 0, 1⟩ (2 * Real.pi) = ⟨1, 0, 0⟩
    ∧ rotate_vector_around_axis ⟨1, 0, 0⟩ ⟨1, 0, 0⟩ 7 = ⟨1, 0, 0⟩ :=
  C8_rotation_identities_unit ⟨1, 0, 0⟩ ⟨0, 0, 1⟩ 7
    (by norm_num [Vec3.normSq_eq]) (fun h => one_ne_zero (congrArg Vec3.z h))

/-- C10: on nonzero inputs the rotation helper always returns a vector of
norm exactly `1`; in particular the output norm differs from the input's
magnitude whenever the input is not unit. -/
theorem C10_rotate_output_unit (vec axis : Vec3) (theta : ℝ)
    (hv : vec ≠ 0) (ha : axis ≠ 0) :
    Vec3.norm (rotate_vector_around_axis vec axis theta) = 1
    ∧ (vec.normSq ≠ 1 →
        Vec3.norm (rotate_vector_around_axis vec axis theta) ≠ Vec3.norm vec) := by
  have h1 : (rotate_vector_around_axis vec axis theta).normSq = 1 :=
    rotate_vector_around_axis_normSq theta hv ha
  have hn1 : Vec3.norm (rotate_vector_around_axis vec axis theta) = 1 := by
    unfold Vec3.norm
    rw [h1]
    exact Real.sqrt_one
  refine ⟨hn1, ?_⟩
  intro hq heq
  apply hq
  have h2 : Vec3.norm vec = 1 := by rw [← heq, hn1]
  calc vec.normSq = (Vec3.norm vec) ^ 2 := (Vec3.sq_norm vec).symm
    _ = 1 := by rw [h2]; norm_num

/-- Witness for C10 at the non-unit input `(2,0,0)`. -/
theorem C10_rotate_output_unit_witness :
    Vec3.norm (rotate_vector_around_axis ⟨2, 0, 0⟩ ⟨0, 0, 1⟩ 3) = 1
    ∧ Vec3.norm (rotate_vector_around_axis ⟨2, 0, 0⟩ ⟨0, 0, 1⟩ 3)
        ≠ Vec3.norm ⟨2, 0, 0⟩ :=
  ⟨(C10_rotate_output_unit ⟨2, 0, 0⟩ ⟨0, 0, 1⟩ 3 (vec_ne_zero_of_x (by norm_num))
      (vec_ne_zero_of_z (by norm_num))).1,
   (C10_rotate_output_unit ⟨2, 0, 0⟩ ⟨0, 0, 1⟩ 3 (vec_ne_zero_of_x (by norm_num))
      (vec_ne_zero_of_z (by norm_num))).2 (by norm_num [Vec3.normSq_eq])⟩

/-- The six-stage trace sequence exactly as the specification words it:
two fixed reflections, the two-mirror scan, the field-lens refraction with
`k = -1`, and the focal-plane intersection, at the literal prescription
constants. For comparison with the source's `MultiAxisGalvanometer.trace`. -/
def traceSpec (focus_distance galvo_gap : ℝ) (r : Ray)
    (angleX_deg angleY_deg : ℝ) : Option Vec3 × Ray :=
  let s1 := ((r.interaction ⟨0, 1, -1⟩ ⟨0, 20, 0⟩).2).reflection ⟨0, 1, -1⟩
  let s2 := ((s1.interaction ⟨0, 1, -1⟩ ⟨0, 20, 200⟩).2).reflection ⟨0, 1, -1⟩
  let s3 := s2.scan ⟨0, 180, 200⟩ ⟨galvo_gap, 180, 200⟩ ⟨-1, 1, 0⟩ ⟨1, 0, 1⟩
      ⟨0, 0, 1⟩ ⟨0, 1, 0⟩ angleX_deg angleY_deg
  let s4 := ((s3.interaction ⟨0, 0, 1⟩ ⟨galvo_gap, 180, 170⟩).2).refraction (-1) ⟨0, 0, 1⟩
  s4.interaction ⟨0, 0, 1⟩ ⟨galvo_gap, 180, 170 - focus_distance⟩

/-- The ray state after the first four stages of `trace` (both fixed mirrors,
the scan, and the field-lens refraction), factored out of the source's
`trace`. -/
def MultiAxisGalvanometer.stagesBeforeFocal (g : MultiAxisGalvanometer) (r : Ray)
    (X_angle Y_angle : ℝ) : Ray :=
  let r1 := g.reflect r ⟨0, 1, -1⟩ ⟨0, 20, 0⟩
  let r2 := g.reflect r1 ⟨0, 1, -1⟩ ⟨0, 20, 200⟩
  let r3 := g.scan r2 ⟨0, 180, 200⟩ ⟨g.galvo_gap, 180, 200⟩ ⟨-1, 1, 0⟩ ⟨1, 0, 1⟩
      ⟨0, 0, 1⟩ ⟨0, 1, 0⟩ X_angle Y_angle
  g.refract r3 ⟨0, 0, 1⟩ ⟨g.galvo_gap, 180, 170⟩ (-1)

/-- The `trace` pipeline from its second stage on, used to express that a
failed first-stage intersection changes nothing downstream. -/
def MultiAxisGalvanometer.traceFrom2 (g : MultiAxisGalvanometer) (r : Ray)
    (X_angle Y_angle : ℝ) : Option Vec3 × Ray :=
  let r2 := g.reflect r ⟨0, 1, -1⟩ ⟨0, 20, 200⟩
  let r3 := g.scan r2 ⟨0, 180, 200⟩ ⟨g.galvo_gap, 180, 200⟩ ⟨-1, 1, 0⟩ ⟨1, 0, 1⟩
      ⟨0, 0, 1⟩ ⟨0, 1, 0⟩ X_angle Y_angle
  let r4 := g.refract r3 ⟨0, 0, 1⟩ ⟨g.galvo_gap, 180, 170⟩ (-1)
  r4.interaction ⟨0, 0, 1⟩ ⟨g.galvo_gap, 180, 170 - g.focus_distance⟩

/-- A concrete bound ray that misses every mirror: it starts at the origin
pointing along `x`, parallel to both fixed mirrors. -/
def cexRay : Ray := ⟨⟨0, 0, 0⟩, ⟨1, 0, 0⟩⟩

/-- A concrete system with `focus_distance = 200` and `galvo_gap = 0`. -/
def cexGalvo : MultiAxisGalvanometer := ⟨200, 0⟩

/-- The direction `cexRay` holds after the field-lens refraction stage. -/
def cexDir : Vec3 :=
  ⟨0, -(Real.pi / 2 / Real.sqrt (1 + (Real.pi / 2) ^ 2)),
    -(1 / Real.sqrt (1 + (Real.pi / 2) ^ 2))⟩

/-- C1: `trace` performs exactly the specification's six-stage sequence at the
literal prescription constants and returns the focal-plane interaction's
result. -/
theorem C1_trace_follows_prescription (g : MultiAxisGalvanometer) (r : Ray)
    (angleX_deg angleY_deg : ℝ) :
    g.trace r angleX_deg angleY_deg
      = traceSpec g.focus_distance g.galvo_gap r angleX_deg angleY_deg := rfl

/-- When `interaction` reports no intersection, it leaves the ray unchanged. -/
lemma interaction_none_ray {r : Ray} {n P : Vec3}
    (h : (r.interaction n P).1 = none) : (r.interaction n P).2 = r := by
  unfold Ray.interaction at h ⊢
  split_ifs at h ⊢ <;> simp_all

/-- The first-stage intersection of `cexRay` fails: the ray is parallel to
the first fixed mirror. -/
lemma cex_stage1_none : (cexRay.interaction ⟨0, 1, -1⟩ ⟨0, 20, 0⟩).1 = none := by
  have hdot : cexRay.direction.dot (Vec3.normalize ⟨0, 1, -1⟩) = 0 := by
    simp [cexRay, Vec3.normalize, Vec3.dot]
  rw [Ray.interaction_parallel ⟨0, 20, 0⟩ (by rw [hdot]; norm_num)]

/-- C2 as amended: a failed intermediate intersection is silently discarded by
`trace` rather than propagated — the ray is left where it was, the stage's
reflection and every later stage still execute, and the returned value is
simply the focal-plane interaction of the ray produced by the first four
stages. -/
theorem C2_intermediate_failures_discarded (g : MultiAxisGalvanometer) (r : Ray)
    (X_angle Y_angle : ℝ)
    (h1 : (r.interaction ⟨0, 1, -1⟩ ⟨0, 20, 0⟩).1 = none) :
    g.trace r X_angle Y_angle
        = (g.stagesBeforeFocal r X_angle Y_angle).interaction ⟨0, 0, 1⟩
            ⟨g.galvo_gap, 180, 170 - g.focus_distance⟩
    ∧ g.trace r X_angle Y_angle
        = g.traceFrom2 (r.reflection ⟨0, 1, -1⟩) X_angle Y_angle := by
  refine ⟨rfl, ?_⟩
  have h2 := interaction_none_ray h1
  simp only [MultiAxisGalvanometer.trace, MultiAxisGalvanometer.traceFrom2,
    MultiAxisGalvanometer.reflect]
  rw [h2]

/-- Witness for the amended C2 at the concrete ray whose first-stage
intersection fails. -/
theorem C2_intermediate_failures_discarded_witness :
    cexGalvo.trace cexRay 0 0
        = (cexGalvo.stagesBeforeFocal cexRay 0 0).interaction ⟨0, 0, 1⟩
            ⟨cexGalvo.galvo_gap, 180, 170 - cexGalvo.focus_distance⟩
    ∧ cexGalvo.trace cexRay 0 0
        = cexGalvo.traceFrom2 (cexRay.reflection ⟨0, 1, -1⟩) 0 0 :=
  C2_intermediate_failures_discarded cexGalvo cexRay 0 0 cex_stage1_none

/-- Normalizing `(0,0,1)` is the identity. -/
lemma normalize_e3 : Vec3.normalize ⟨0, 0, 1⟩ = ⟨0, 0, 1⟩ :=
  Vec3.normalize_of_normSq_one (by norm_num [Vec3.normSq_eq])

/-- The normalized first scan-mirror normal. -/
lemma normalize_nx : Vec3.normalize ⟨-1, 1, 0⟩
    = ⟨-(1 / Real.sqrt 2), 1 / Real.sqrt 2, 0⟩ := by
  unfold Vec3.normalize Vec3.norm
  rw [show Vec3.normSq ⟨-1, 1, 0⟩ = 2 by norm_num [Vec3.normSq_eq]]
  ext <;> simp

/-- The normalized second scan-mirror normal. -/
lemma normalize_ny : Vec3.normalize ⟨1, 0, 1⟩
    = ⟨1 / Real.sqrt 2, 0, 1 / Real.sqrt 2⟩ := by
  unfold Vec3.normalize Vec3.norm
  rw [show Vec3.normSq ⟨1, 0, 1⟩ = 2 by norm_num [Vec3.normSq_eq]]
  ext <;> simp

/-- The square of `1/√2` is `1/2`. -/
lemma one_div_sqrt_two_sq : (1 / Real.sqrt 2) ^ 2 = 1 / 2 := by
  rw [div_pow, one_pow, Real.sq_sqrt (by norm_num : (0:ℝ) ≤ 2)]

/-- `1/√2` is at least `1e-10` (used against the parallel-ray guard). -/
lemma one_div_sqrt_two_large : (1e-10 : ℝ) ≤ 1 / Real.sqrt 2 := by
  have h2 : Real.sqrt 2 ≤ 2 := by
    calc Real.sqrt 2 ≤ Real.sqrt 4 := Real.sqrt_le_sqrt (by norm_num)
      _ = 2 := by
          rw [show (4 : ℝ) = 2 ^ 2 by norm_num]
          exact Real.sqrt_sq (by norm_num)
  have hpos : (0:ℝ) < Real.sqrt 2 := Real.sqrt_pos.mpr (by norm_num)
  have : (1:ℝ) / 2 ≤ 1 / Real.sqrt 2 := one_div_le_one_div_of_le hpos h2
  linarith

/-- `interaction` with an already-unit plane normal, with the inner
normalization discharged. -/
lemma interaction_of_unit {r : Ray} {n : Vec3} (hn : n.normSq = 1) (P : Vec3) :
    r.interaction n P =
      if |r.direction.dot n| < 1e-10 then (none, r)
      else if ((P - r.position).dot n) / (r.direction.dot n) < 0 then (none, r)
      else
        (some (r.point_at_parameter (((P - r.position).dot n) / (r.direction.dot n))),
         ⟨r.point_at_parameter (((P - r.position).dot n) / (r.direction.dot n)),
          r.direction⟩) := by
  unfold Ray.interaction
  rw [Vec3.normalize_of_normSq_one hn]

/-- `reflection` with an already-unit mirror normal. -/
lemma reflection_of_unit {r : Ray} {n : Vec3} (hn : n.normSq = 1) :
    r.reflection n = ⟨r.position, r.direction - (2 * r.direction.dot n) • n⟩ := by
  unfold Ray.reflection
  rw [Vec3.normalize_of_normSq_one hn]

/-- Rotating by angle `0` returns the normalized input vector. -/
lemma rotate_vector_around_axis_zero (v a : Vec3) :
    rotate_vector_around_axis v a 0 = v.normalize := by
  simp only [rotate_vector_around_axis, Real.cos_zero, Real.sin_zero]
  ext <;> simp

/-- Both fixed-mirror stages leave `cexRay` unchanged: the intersection fails
(parallel ray) yet the reflection still executes, and its normal is orthogonal
to the direction. -/
lemma cex_reflect_fixed (P : Vec3) : cexGalvo.reflect cexRay ⟨0, 1, -1⟩ P = cexRay := by
  have hdot : cexRay.direction.dot (Vec3.normalize ⟨0, 1, -1⟩) = 0 := by
    simp [cexRay, Vec3.normalize, Vec3.dot]
  unfold MultiAxisGalvanometer.reflect
  rw [Ray.interaction_parallel P (by rw [hdot]; norm_num)]
  show cexRay.reflection ⟨0, 1, -1⟩ = cexRay
  unfold Ray.reflection
  rw [hdot]
  ext <;> simp [cexRay]

/-- The scan stage applied to `cexRay` at zero angles: both intersections
fail (one behind the origin, one parallel) yet both reflections execute,
turning the direction from `(1,0,0)` into `(0,1,0)`. -/
lemma cex_scan :
    cexRay.scan ⟨0, 180, 200⟩ ⟨0, 180, 200⟩ ⟨-1, 1, 0⟩ ⟨1, 0, 1⟩ ⟨0, 0, 1⟩ ⟨0, 1, 0⟩ 0 0
      = ⟨⟨0, 0, 0⟩, ⟨0, 1, 0⟩⟩ := by
  have hs2pos : (0:ℝ) < Real.sqrt 2 := Real.sqrt_pos.mpr (by norm_num)
  have hs2sq : Real.sqrt 2 * Real.sqrt 2 = 2 := Real.mul_self_sqrt (by norm_num)
  have hhalf : (1 / Real.sqrt 2) * (1 / Real.sqrt 2) = 1 / 2 := by
    rw [div_mul_div_comm, one_mul, hs2sq]
  have hnxu : Vec3.normSq (⟨-(1 / Real.sqrt 2), 1 / Real.sqrt 2, 0⟩ : Vec3) = 1 := by
    rw [Vec3.normSq_eq]
    simp only [neg_sq, one_div_sqrt_two_sq]
    norm_num
  have hnyu : Vec3.normSq (⟨1 / Real.sqrt 2, 0, 1 / Real.sqrt 2⟩ : Vec3) = 1 := by
    rw [Vec3.normSq_eq]
    simp only [one_div_sqrt_two_sq]
    norm_num
  have hnx_after : rotate_vector_around_axis (Vec3.normalize ⟨-1, 1, 0⟩)
      (Vec3.normalize ⟨0, 0, 1⟩) (0 * Real.pi / 180)
        = ⟨-(1 / Real.sqrt 2), 1 / Real.sqrt 2, 0⟩ := by
    rw [show (0:ℝ) * Real.pi / 180 = 0 by ring, rotate_vector_around_axis_zero,
      normalize_nx]
    exact Vec3.normalize_of_normSq_one hnxu
  have hny_after : rotate_vector_around_axis (Vec3.normalize ⟨1, 0, 1⟩)
      (Vec3.normalize ⟨0, 1, 0⟩) (0 * Real.pi / 180)
        = ⟨1 / Real.sqrt 2, 0, 1 / Real.sqrt 2⟩ := by
    rw [show (0:ℝ) * Real.pi / 180 = 0 by ring, rotate_vector_around_axis_zero,
      normalize_ny]
    exact Vec3.normalize_of_normSq_one hnyu
  have hdot1 : cexRay.direction.dot ⟨-(1 / Real.sqrt 2), 1 / Real.sqrt 2, 0⟩
      = -(1 / Real.sqrt 2) := by
    simp [cexRay, Vec3.dot]
  have hcond1 : ¬ |(-(1 / Real.sqrt 2) : ℝ)| < 1e-10 := by
    rw [abs_neg, abs_of_pos (by positivity)]
    linarith [one_div_sqrt_two_large]
  have hcond2 : ((⟨0, 180, 200⟩ : Vec3) - cexRay.position).dot
      ⟨-(1 / Real.sqrt 2), 1 / Real.sqrt 2, 0⟩ / -(1 / Real.sqrt 2) < 0 := by
    apply div_neg_of_pos_of_neg
    · have h180 : ((⟨0, 180, 200⟩ : Vec3) - cexRay.position).dot
          ⟨-(1 / Real.sqrt 2), 1 / Real.sqrt 2, 0⟩ = 180 * (1 / Real.sqrt 2) := by
        simp [cexRay, Vec3.dot, one_div]
      rw [h180]
      positivity
    · rw [neg_lt_zero]
      positivity
  have stepA : cexRay.interaction ⟨-(1 / Real.sqrt 2), 1 / Real.sqrt 2, 0⟩ ⟨0, 180, 200⟩
      = (none, cexRay) := by
    rw [interaction_of_unit hnxu ⟨0, 180, 200⟩, hdot1, if_neg hcond1, if_pos hcond2]
  have stepB : cexRay.reflection ⟨-(1 / Real.sqrt 2), 1 / Real.sqrt 2, 0⟩
      = ⟨⟨0, 0, 0⟩, ⟨0, 1, 0⟩⟩ := by
    rw [reflection_of_unit hnxu, hdot1]
    ext
    · simp [cexRay]
    · simp [cexRay]
    · simp [cexRay]
    · simp [cexRay]
      linear_combination (-2 : ℝ) * hhalf
    · simp [cexRay]
      linear_combination (2 : ℝ) * hhalf
    · simp [cexRay]
  have hdot2 : (⟨⟨0, 0, 0⟩, ⟨0, 1, 0⟩⟩ : Ray).direction.dot
      ⟨1 / Real.sqrt 2, 0, 1 / Real.sqrt 2⟩ = 0 := by
    simp [Vec3.dot]
  have stepC : (⟨⟨0, 0, 0⟩, ⟨0, 1, 0⟩⟩ : Ray).interaction
      ⟨1 / Real.sqrt 2, 0, 1 / Real.sqrt 2⟩ ⟨0, 180, 200⟩
        = (none, ⟨⟨0, 0, 0⟩, ⟨0, 1, 0⟩⟩) := by
    rw [interaction_of_unit hnyu ⟨0, 180, 200⟩, hdot2]
    rw [if_pos (by norm_num)]
  have stepD : (⟨⟨0, 0, 0⟩, ⟨0, 1, 0⟩⟩ : Ray).reflection
      ⟨1 / Real.sqrt 2, 0, 1 / Real.sqrt 2⟩ = ⟨⟨0, 0, 0⟩, ⟨0, 1, 0⟩⟩ := by
    rw [reflection_of_unit hnyu, hdot2]
    ext <;> simp
  simp only [Ray.scan]
  rw [hnx_after, hny_after, stepA]
  dsimp only
  rw [stepB, stepC]
  dsimp only
  rw [stepD]

/-- The field-lens refraction applied to the ray `(0,1,0)` grazing the lens:
`cos_theta = 0`, so `acos_theta = arccos 0 = π/2`, yielding `cexDir`. -/
lemma cex_refract :
    Ray.refraction ⟨⟨0, 0, 0⟩, ⟨0, 1, 0⟩⟩ (-1) ⟨0, 0, 1⟩ = ⟨⟨0, 0, 0⟩, cexDir⟩ := by
  have hcos : Ray.refractionCos ⟨⟨0, 0, 0⟩, ⟨0, 1, 0⟩⟩ ⟨0, 0, 1⟩ = 0 := by
    unfold Ray.refractionCos
    rw [normalize_e3]
    simp [Vec3.dot]
  have hacos : Ray.refractionAcos ⟨⟨0, 0, 0⟩, ⟨0, 1, 0⟩⟩ ⟨0, 0, 1⟩ = Real.pi / 2 := by
    unfold Ray.refractionAcos
    rw [hcos, if_neg (by norm_num)]
    exact Real.arccos_zero
  have hpv : Ray.refractionParallelRaw ⟨⟨0, 0, 0⟩, ⟨0, 1, 0⟩⟩ ⟨0, 0, 1⟩ = ⟨0, 1, 0⟩ := by
    unfold Ray.refractionParallelRaw
    rw [hcos, normalize_e3]
    ext <;> simp
  have hpvn : Vec3.normalize ⟨0, 1, 0⟩ = ⟨0, 1, 0⟩ :=
    Vec3.normalize_of_normSq_one (by norm_num [Vec3.normSq_eq])
  have hQpos : (0:ℝ) < 1 + (Real.pi / 2) ^ 2 := by positivity
  have hQe : 1 + (-1:ℝ) ^ 2 * (Real.pi / 2) ^ 2 = 1 + (Real.pi / 2) ^ 2 := by norm_num
  have hsqQ : Real.sqrt (1 + (Real.pi / 2) ^ 2) ^ 2 = 1 + (Real.pi / 2) ^ 2 :=
    Real.sq_sqrt hQpos.le
  have hsqQne : Real.sqrt (1 + (Real.pi / 2) ^ 2) ≠ 0 :=
    (Real.sqrt_pos.mpr hQpos).ne'
  have hsum : (-1 * (1 / Real.sqrt (1 + (Real.pi / 2) ^ 2))) • (⟨0, 0, 1⟩ : Vec3)
      + (-1 * (Real.pi / 2) / Real.sqrt (1 + (Real.pi / 2) ^ 2)) • (⟨0, 1, 0⟩ : Vec3)
      = cexDir := by
    unfold cexDir
    ext <;> simp <;> ring
  have hDirSq : Vec3.normSq cexDir = 1 := by
    unfold cexDir
    rw [Vec3.normSq_eq]
    simp only [neg_sq, div_pow, hsqQ, one_pow]
    field_simp
    ring
  simp only [Ray.refraction]
  rw [hacos, hpv, hpvn, normalize_e3, hQe, hsum, Vec3.normalize_of_normSq_one hDirSq]

/-- The focal-plane interaction of the refracted ray: a genuine forward hit
with intersection point `(0, -15π, -30)`. -/
lemma cex_final :
    (Ray.interaction ⟨⟨0, 0, 0⟩, cexDir⟩ ⟨0, 0, 1⟩ ⟨0, 180, -30⟩).1
      = some ⟨0, -15 * Real.pi, -30⟩ := by
  have hQpos : (0:ℝ) < 1 + (Real.pi / 2) ^ 2 := by positivity
  have hsqQpos : 0 < Real.sqrt (1 + (Real.pi / 2) ^ 2) := Real.sqrt_pos.mpr hQpos
  have hsqQne : Real.sqrt (1 + (Real.pi / 2) ^ 2) ≠ 0 := hsqQpos.ne'
  have hdot : (⟨⟨0, 0, 0⟩, cexDir⟩ : Ray).direction.dot ⟨0, 0, 1⟩
      = -(1 / Real.sqrt (1 + (Real.pi / 2) ^ 2)) := by
    simp [cexDir, Vec3.dot]
  have hnum : ((⟨0, 180, -30⟩ : Vec3) - (⟨⟨0, 0, 0⟩, cexDir⟩ : Ray).position).dot
      ⟨0, 0, 1⟩ = -30 := by
    simp [Vec3.dot]
  have hsqle : Real.sqrt (1 + (Real.pi / 2) ^ 2) ≤ 10 := by
    have hfour := Real.pi_le_four
    have hQle : 1 + (Real.pi / 2) ^ 2 ≤ 100 := by nlinarith [Real.pi_pos]
    calc Real.sqrt (1 + (Real.pi / 2) ^ 2) ≤ Real.sqrt 100 := Real.sqrt_le_sqrt hQle
      _ = 10 := by
          rw [show (100:ℝ) = 10 ^ 2 by norm_num]
          exact Real.sqrt_sq (by norm_num)
  have hinv : (1:ℝ) / 10 ≤ 1 / Real.sqrt (1 + (Real.pi / 2) ^ 2) :=
    one_div_le_one_div_of_le hsqQpos hsqle
  have hcond1 : ¬ |(-(1 / Real.sqrt (1 + (Real.pi / 2) ^ 2)) : ℝ)| < 1e-10 := by
    rw [abs_neg, abs_of_pos (by positivity)]
    linarith
  have htv : (-30 : ℝ) / -(1 / Real.sqrt (1 + (Real.pi / 2) ^ 2))
      = 30 * Real.sqrt (1 + (Real.pi / 2) ^ 2) := by
    field_simp
  have hcond2 : ¬ (-30 : ℝ) / -(1 / Real.sqrt (1 + (Real.pi / 2) ^ 2)) < 0 := by
    rw [htv]
    exact not_lt.mpr (by positivity)
  rw [interaction_of_unit (by norm_num [Vec3.normSq_eq]) ⟨0, 180, -30⟩, hdot, hnum,
    if_neg hcond1, if_neg hcond2, htv]
  dsimp only
  refine congrArg some ?_
  unfold Ray.point_at_parameter
  ext
  · simp [cexDir]
  · simp [cexDir]
    field_simp [hsqQne]
    ring
  · simp [cexDir]
    field_simp [hsqQne]

/-- Counterexample for C2: with `focus_distance = 200`, `galvo_gap = 0` and a
bound ray along `x`, the very first stage's intersection fails, yet `trace`
does not propagate a failure: every later stage still executes and the call
returns the point `(0, -15π, -30)`. -/
theorem C2_no_short_circuit_counterexample :
    (cexRay.interaction ⟨0, 1, -1⟩ ⟨0, 20, 0⟩).1 = none
    ∧ (cexGalvo.trace cexRay 0 0).1 = some ⟨0, -15 * Real.pi, -30⟩ := by
  refine ⟨cex_stage1_none, ?_⟩
  have hgap : (⟨cexGalvo.galvo_gap, 180, 200⟩ : Vec3) = ⟨0, 180, 200⟩ := rfl
  have hP5 : (⟨cexGalvo.galvo_gap, 180, 170⟩ : Vec3) = ⟨0, 180, 170⟩ := rfl
  have hPf : (⟨cexGalvo.galvo_gap, 180, 170 - cexGalvo.focus_distance⟩ : Vec3)
      = ⟨0, 180, -30⟩ := by
    ext <;> norm_num [cexGalvo]
  have hpar : (⟨⟨0, 0, 0⟩, ⟨0, 1, 0⟩⟩ : Ray).interaction ⟨0, 0, 1⟩ ⟨0, 180, 170⟩
      = (none, ⟨⟨0, 0, 0⟩, ⟨0, 1, 0⟩⟩) := by
    apply Ray.interaction_parallel
    rw [normalize_e3]
    norm_num [Vec3.dot]
  simp only [MultiAxisGalvanometer.trace, MultiAxisGalvanometer.scan,
    MultiAxisGalvanometer.refract]
  rw [cex_reflect_fixed, cex_reflect_fixed, hgap, hP5, hPf, cex_scan, hpar]
  dsimp only
  rw [cex_refract]
  exact cex_final
